import Mathlib

/-!
Verification development for the memeai-app repository (src/app.py).

The caption, URL and share-link logic of `app.py` is pure string
manipulation.  We embed it shallowly: Python strings become `List Char`,
and each helper of `app.py` becomes a Lean function with the same name.
Python behaviour that can raise (indexing an empty list) is modelled with
`Option`; the outcome of the external OpenAI chat-completion call is
modelled as an `Option (List Char)` parameter (`none` = the call raised,
`some text` = the returned message content), and `random.choice` as an
explicit index parameter.
-/

namespace MemeAI

/-- Python whitespace predicate (the ASCII whitespace characters recognised
by `str.strip` and `str.split`). -/
def pyIsSpace (c : Char) : Bool :=
  c = ' ' || c = '\t' || c = '\n' || c = '\r' || c = '\x0b' || c = '\x0c'

/-- Python `str.strip()`: remove leading and trailing whitespace. -/
def pyStrip (l : List Char) : List Char :=
  List.rdropWhile pyIsSpace (List.dropWhile pyIsSpace l)

/-- Python `str.upper()` (ASCII range). -/
def pyUpper (l : List Char) : List Char :=
  l.map Char.toUpper

/-- Worker for `pySplitlines`; `acc` is the current line, reversed.
A `\r` immediately followed by `\n` counts as a single terminator. -/
def pySplitlinesAux : List Char → List Char → List (List Char)
  | [], acc => if acc = [] then [] else [acc.reverse]
  | c :: rest, acc =>
    if c = '\r' then
      match rest with
      | [] => [acc.reverse]
      | r :: rs =>
        if r = '\n' then acc.reverse :: pySplitlinesAux rs []
        else acc.reverse :: pySplitlinesAux (r :: rs) []
    else if c = '\n' then acc.reverse :: pySplitlinesAux rest []
    else pySplitlinesAux rest (c :: acc)

/-- Python `str.splitlines()`: split at `\n`, `\r` and `\r\n`; a trailing
line terminator does not produce a final empty line. -/
def pySplitlines (l : List Char) : List (List Char) :=
  pySplitlinesAux l []

/-- Worker for `pySplitWs`; `acc` is the current word, reversed. -/
def pySplitWsAux : List Char → List Char → List (List Char)
  | [], acc => if acc = [] then [] else [acc.reverse]
  | c :: rest, acc =>
    if pyIsSpace c then
      if acc = [] then pySplitWsAux rest []
      else acc.reverse :: pySplitWsAux rest []
    else pySplitWsAux rest (c :: acc)

/-- Python `str.split()` with no argument: split on runs of whitespace,
returning no empty words. -/
def pySplitWs (l : List Char) : List (List Char) :=
  pySplitWsAux l []

/-- Python `" ".join(words)`. -/
def pyJoinSpace : List (List Char) → List Char
  | [] => []
  | [w] => w
  | w :: ws => w ++ ' ' :: pyJoinSpace ws

/-- Does `pat` occur in `s` as a contiguous substring?  Models Python
`pat in s`. -/
def containsSub (pat : List Char) : List Char → Bool
  | [] => pat.isEmpty
  | c :: rest => pat.isPrefixOf (c :: rest) || containsSub pat rest

/-- The marker `"TOP:"`. -/
def TOPm : List Char := ['T', 'O', 'P', ':']

/-- The marker `"BOTTOM:"`. -/
def BOTTOMm : List Char := ['B', 'O', 'T', 'T', 'O', 'M', ':']

/-- Python `line.split(":", 1)[1].strip()` for a line known to contain a
colon: everything after the first colon, stripped.  (When the line has no
colon Python would raise; in `parse_caption_output` this is only applied
to lines that start with `TOP:`/`BOTTOM:` after upcasing, which forces a
colon, so the `[]` this definition returns in that case is never hit.) -/
def afterFirstColonStrip (line : List Char) : List Char :=
  pyStrip ((line.dropWhile (fun c => ¬ c = ':')).drop 1)

/-- Does `line.upper()` start with `"TOP:"`? -/
def isTopLine (line : List Char) : Bool :=
  TOPm.isPrefixOf (pyUpper line)

/-- Does `line.upper()` start with `"BOTTOM:"`? -/
def isBotLine (line : List Char) : Bool :=
  BOTTOMm.isPrefixOf (pyUpper line)

/-- The `for line in text.splitlines()` loop of `parse_caption_output`:
a `TOP:`-prefixed line overwrites `top`, otherwise (`elif`) a
`BOTTOM:`-prefixed line overwrites `bottom`. -/
def markerLoop : List (List Char) → List Char × List Char → List Char × List Char
  | [], tb => tb
  | line :: rest, (top, bottom) =>
    if isTopLine line then markerLoop rest (afterFirstColonStrip line, bottom)
    else if isBotLine line then markerLoop rest (top, afterFirstColonStrip line)
    else markerLoop rest (top, bottom)

/-- The list `[p.strip() for p in text.splitlines() if p.strip()]`. -/
def nonEmptyParts (text : List Char) : List (List Char) :=
  ((pySplitlines text).map pyStrip).filter (fun p => decide (¬ p = []))

/-- `parse_caption_output` from `src/app.py`.  `none` models the
`IndexError` Python raises at `parts[0]` when `parts` is empty (we prove
below this never happens). -/
def parse_caption_output (text0 : List Char) : Option (List Char × List Char) :=
  let text := pyStrip text0
  if containsSub TOPm (pyUpper text) || containsSub BOTTOMm (pyUpper text) then
    some (markerLoop (pySplitlines text) ([], []))
  else if text.contains '\n' then
    match nonEmptyParts text with
    | p0 :: p1 :: _ => some (p0, p1)
    | [p0] => some (p0, [])
    | [] => none
  else
    some (pyJoinSpace ((pySplitWs text).take (max 1 ((pySplitWs text).length / 2))),
          pyJoinSpace ((pySplitWs text).drop (max 1 ((pySplitWs text).length / 2))))

/-- The fixed `punch_templates` list of `fallback_caption`. -/
def punch_templates : List (List Char × List Char) :=
  [("When you".data, "but your code says no".data),
   ("Me trying to".data, "vs reality".data),
   ("Expectation:".data, "Reality:".data),
   ("When the deadline is".data, "and you haven't started".data)]

/-- The separator `" — "` (space, em dash, space) of the f-string in
`fallback_caption`. -/
def dashSep : List Char := [' ', '—', ' ']

/-- `fallback_caption` from `src/app.py`; `choice` models the index picked
by `random.choice(punch_templates)`. -/
def fallback_caption (choice : Fin punch_templates.length) (prompt : List Char) :
    List Char × List Char :=
  let t := punch_templates.get choice
  (if prompt = [] then t.1 else prompt ++ dashSep ++ t.1, t.2)

/-- `generate_caption` from `src/app.py`.  `openai_available` models
whether the `openai` import succeeded, `openai_key` the credential (the
empty list models a missing/empty key, which is falsy in Python), and
`remote_response` the outcome of the `ChatCompletion.create` call inside
the `try` block (`none` = the call raised; the `except` clause turns any
such exception, and the `IndexError` a failing parse would raise, into a
fallback result). -/
def generate_caption (openai_available : Bool) (openai_key : List Char)
    (remote_response : Option (List Char)) (choice : Fin punch_templates.length)
    (prompt : List Char) : List Char × List Char :=
  if openai_key = [] ∨ openai_available = false then fallback_caption choice prompt
  else
    match remote_response with
    | none => fallback_caption choice prompt
    | some text =>
      match parse_caption_output text with
      | none => fallback_caption choice prompt
      | some (top, bottom) =>
        if top = [] ∧ bottom = [] then fallback_caption choice prompt
        else (top, bottom)

/-- UTF-8 encoding of a single character, as a list of byte values. -/
def utf8Bytes (c : Char) : List Nat :=
  let n := c.toNat
  if n < 128 then [n]
  else if n < 2048 then [192 + n / 64, 128 + n % 64]
  else if n < 65536 then [224 + n / 4096, 128 + n / 64 % 64, 128 + n % 64]
  else [240 + n / 262144, 128 + n / 4096 % 64, 128 + n / 64 % 64, 128 + n % 64]

/-- Upper-case hexadecimal digit, as used by `urllib.parse.quote`. -/
def hexDigit (n : Nat) : Char :=
  if n < 10 then Char.ofNat (48 + n) else Char.ofNat (55 + n)

/-- Percent-escape of one byte: `%XX` with upper-case hex. -/
def percentByte (b : Nat) : List Char :=
  ['%', hexDigit (b / 16), hexDigit (b % 16)]

/-- Is `c` in `urllib.parse.quote`'s always-safe set (ASCII letters,
digits, `_`, `.`, `-`, `~`)? -/
def alwaysSafe (c : Char) : Bool :=
  ('A' ≤ c && c ≤ 'Z') || ('a' ≤ c && c ≤ 'z') || ('0' ≤ c && c ≤ '9') ||
  c = '_' || c = '.' || c = '-' || c = '~'

/-- Encoding of one character under `urllib.parse.quote` with extra safe
set `safe`. -/
def quoteChar (safe : List Char) (c : Char) : List Char :=
  if alwaysSafe c || safe.contains c then [c]
  else (utf8Bytes c).flatMap percentByte

/-- `urllib.parse.quote(s, safe=safe)`. -/
def pyQuote (safe : List Char) (s : List Char) : List Char :=
  s.flatMap (quoteChar safe)

/-- The local helper `enc` of `make_memegen_url`:
`urllib.parse.quote(s, safe='') if s else "_"`. -/
def encSegment (s : List Char) : List Char :=
  if s = [] then ['_'] else pyQuote [] s

/-- `make_memegen_url` from `src/app.py`. -/
def make_memegen_url (template top bottom : List Char) : List Char :=
  "https://api.memegen.link/images/".data ++ template ++ '/' ::
    (encSegment top ++ '/' :: (encSegment bottom ++ ".png".data))

/-- `make_share_links` from `src/app.py`, as an association list in the
insertion order of the Python dict.  `urllib.parse.quote` is used with its
default safe set `'/'`. -/
def make_share_links (meme_url caption_text : List Char) : List (List Char × List Char) :=
  [("Twitter".data,
    "https://twitter.com/intent/tweet?text=".data ++ pyQuote ['/'] caption_text ++
      "&url=".data ++ pyQuote ['/'] meme_url),
   ("WhatsApp".data,
    "https://api.whatsapp.com/send?text=".data ++
      pyQuote ['/'] (caption_text ++ ' ' :: meme_url)),
   ("Reddit".data,
    "https://www.reddit.com/submit?title=".data ++ pyQuote ['/'] caption_text ++
      "&url=".data ++ pyQuote ['/'] meme_url)]

/-! ### Helper lemmas about the Python string primitives -/

/-- `containsSub` decides substring containment. -/
theorem containsSub_iff (pat s : List Char) :
    containsSub pat s = true ↔ pat <:+: s := by
  induction s with
  | nil =>
    simp [containsSub, List.isEmpty_iff, List.infix_nil]
  | cons c rest ih =>
    simp only [containsSub, Bool.or_eq_true, List.infix_cons_iff,
      List.isPrefixOf_iff_prefix, ih]

/-- The head of a non-trivial `dropWhile` result falsifies the predicate. -/
theorem dropWhile_head_false (p : Char → Bool) (l : List Char) (c : Char)
    (cs : List Char) (h : List.dropWhile p l = c :: cs) : p c = false := by
  induction l with
  | nil => simp at h
  | cons x t ih =>
    rw [List.dropWhile_cons] at h
    by_cases hx : p x = true
    · exact ih (by simpa [hx] using h)
    · rw [if_neg hx] at h
      injection h with h1 h2
      subst h1
      simpa using hx

/-- A non-empty stripped string contains a non-whitespace character. -/
theorem exists_nonspace_of_strip_ne_nil (t : List Char) (h : pyStrip t ≠ []) :
    ∃ c ∈ pyStrip t, pyIsSpace c = false := by
  obtain ⟨c, cs, hcs⟩ := List.exists_cons_of_ne_nil h
  obtain ⟨s, hs⟩ := List.rdropWhile_prefix pyIsSpace (List.dropWhile pyIsSpace t)
  rw [show List.rdropWhile pyIsSpace (List.dropWhile pyIsSpace t) = pyStrip t from rfl,
    hcs] at hs
  refine ⟨c, by simp [hcs], ?_⟩
  exact dropWhile_head_false pyIsSpace t c (cs ++ s) (by rw [← hs, List.cons_append])

/-- If stripping kills a string, it was all whitespace. -/
theorem all_space_of_strip_eq_nil (m : List Char) (h : pyStrip m = []) :
    ∀ c ∈ m, pyIsSpace c = true := by
  intro c hc
  have hd := List.rdropWhile_eq_nil_iff.mp h
  rw [← List.takeWhile_append_dropWhile pyIsSpace m, List.mem_append] at hc
  rcases hc with hc | hc
  · exact List.mem_takeWhile_imp hc
  · exact hd c hc

/-- Unfolding equations for `pySplitlinesAux`. -/
theorem splitlinesAux_nil (acc : List Char) :
    pySplitlinesAux [] acc = if acc = [] then [] else [acc.reverse] := rfl

theorem splitlinesAux_cr_nil (acc : List Char) :
    pySplitlinesAux ['\r'] acc = [acc.reverse] := by
  rw [pySplitlinesAux.eq_def]
  simp

theorem splitlinesAux_crlf (acc rs : List Char) :
    pySplitlinesAux ('\r' :: '\n' :: rs) acc =
      acc.reverse :: pySplitlinesAux rs [] := by
  rw [pySplitlinesAux.eq_def]
  simp

theorem splitlinesAux_cr (acc rs : List Char) (r : Char) (hr : ¬ r = '\n') :
    pySplitlinesAux ('\r' :: r :: rs) acc =
      acc.reverse :: pySplitlinesAux (r :: rs) [] := by
  rw [pySplitlinesAux.eq_def]
  simp [hr]

theorem splitlinesAux_lf (acc rest : List Char) :
    pySplitlinesAux ('\n' :: rest) acc =
      acc.reverse :: pySplitlinesAux rest [] := by
  rw [pySplitlinesAux.eq_def]
  simp

theorem splitlinesAux_other (acc rest : List Char) (c : Char)
    (h1 : ¬ c = '\r') (h2 : ¬ c = '\n') :
    pySplitlinesAux (c :: rest) acc = pySplitlinesAux rest (c :: acc) := by
  rw [pySplitlinesAux.eq_def]
  simp [h1, h2]

/-- Every chunk produced by `pySplitlinesAux` is a contiguous piece of the
input. -/
theorem mem_splitlinesAux_sub (l acc w : List Char)
    (hw : w ∈ pySplitlinesAux l acc) : w <:+: acc.reverse ++ l := by
  induction l, acc using pySplitlinesAux.induct with
  | case1 =>
    rw [splitlinesAux_nil] at hw
    simp at hw
  | case2 acc hacc =>
    rw [splitlinesAux_nil, if_neg hacc] at hw
    rcases List.mem_singleton.mp hw with rfl
    simp
  | case3 acc =>
    rw [splitlinesAux_cr_nil] at hw
    rcases List.mem_singleton.mp hw with rfl
    exact ⟨[], ['\r'], by simp⟩
  | case4 acc rs ih =>
    rw [splitlinesAux_crlf] at hw
    rcases List.mem_cons.mp hw with rfl | hw
    · exact ⟨[], '\r' :: '\n' :: rs, by simp⟩
    · have h1 := ih hw
      simp only [List.reverse_nil, List.nil_append] at h1
      exact List.IsInfix.trans h1 ⟨acc.reverse ++ ['\r', '\n'], [], by simp⟩
  | case5 acc r rs hr ih =>
    rw [splitlinesAux_cr _ _ _ hr] at hw
    rcases List.mem_cons.mp hw with rfl | hw
    · exact ⟨[], '\r' :: r :: rs, by simp⟩
    · have h1 := ih hw
      simp only [List.reverse_nil, List.nil_append] at h1
      exact List.IsInfix.trans h1 ⟨acc.reverse ++ ['\r'], [], by simp⟩
  | case6 rest acc hn ih =>
    rw [splitlinesAux_lf] at hw
    rcases List.mem_cons.mp hw with rfl | hw
    · exact ⟨[], '\n' :: rest, by simp⟩
    · have h1 := ih hw
      simp only [List.reverse_nil, List.nil_append] at h1
      exact List.IsInfix.trans h1 ⟨acc.reverse ++ ['\n'], [], by simp⟩
  | case7 c rest acc h1 h2 ih =>
    rw [splitlinesAux_other _ _ _ h1 h2] at hw
    have := ih hw
    simpa using this

/-- Every line of `pySplitlines` is a contiguous piece of the input. -/
theorem mem_splitlines_sub (l w : List Char) (hw : w ∈ pySplitlines l) :
    w <:+: l := by
  have := mem_splitlinesAux_sub l [] w hw
  simpa using this

/-- `pySplitWs` never produces an empty word. -/
theorem mem_splitWsAux_ne_nil (l acc : List Char) (w : List Char)
    (hw : w ∈ pySplitWsAux l acc) : w ≠ [] := by
  induction l, acc using pySplitWsAux.induct with
  | case1 =>
    rw [pySplitWsAux] at hw
    simp at hw
  | case2 acc hacc =>
    rw [pySplitWsAux, if_neg hacc] at hw
    rcases List.mem_singleton.mp hw with rfl
    simpa using hacc
  | case3 c rest hc ih =>
    rw [pySplitWsAux, if_pos hc, if_pos rfl] at hw
    exact ih hw
  | case4 c rest acc hc hacc ih =>
    rw [pySplitWsAux, if_pos hc, if_neg hacc] at hw
    rcases List.mem_cons.mp hw with rfl | hw
    · simpa using hacc
    · exact ih hw
  | case5 c rest acc hc ih =>
    rw [pySplitWsAux, if_neg hc] at hw
    exact ih hw

/-- If the input has a non-whitespace character (or a word is pending),
`pySplitWsAux` produces at least one word. -/
theorem splitWsAux_ne_nil (l acc : List Char)
    (h : (∃ c ∈ l, pyIsSpace c = false) ∨ acc ≠ []) :
    pySplitWsAux l acc ≠ [] := by
  induction l, acc using pySplitWsAux.induct with
  | case1 =>
    rcases h with ⟨c, hc, _⟩ | h
    · simp at hc
    · simp at h
  | case2 acc hacc =>
    rw [pySplitWsAux, if_neg hacc]
    simp
  | case3 c rest hc ih =>
    rw [pySplitWsAux, if_pos hc, if_pos rfl]
    refine ih (Or.inl ?_)
    rcases h with ⟨d, hd, hds⟩ | h
    · rcases List.mem_cons.mp hd with rfl | hd
      · rw [hc] at hds
        exact absurd hds (by simp)
      · exact ⟨d, hd, hds⟩
    · simp at h
  | case4 c rest acc hc hacc ih =>
    rw [pySplitWsAux, if_pos hc, if_neg hacc]
    simp
  | case5 c rest acc hc ih =>
    rw [pySplitWsAux, if_neg hc]
    exact ih (Or.inr (by simp))

/-- Joining a list of words whose first word is non-empty gives a
non-empty string. -/
theorem joinSpace_ne_nil (w : List Char) (ws : List (List Char))
    (hw : w ≠ []) : pyJoinSpace (w :: ws) ≠ [] := by
  cases ws with
  | nil => exact hw
  | cons v vs =>
    rw [show pyJoinSpace (w :: v :: vs) = w ++ ' ' :: pyJoinSpace (v :: vs) from rfl]
    exact List.append_ne_nil_of_left_ne_nil hw _

/-- If the processed text (plus any pending line) has a non-whitespace
character, the stripped-and-filtered line list of `pySplitlinesAux` is
non-empty. -/
theorem splitlinesAux_parts_ne_nil (l acc : List Char)
    (h : ∃ c ∈ acc.reverse ++ l, pyIsSpace c = false) :
    ((pySplitlinesAux l acc).map pyStrip).filter (fun p => decide (¬ p = [])) ≠ [] := by
  induction l, acc using pySplitlinesAux.induct with
  | case1 =>
    simp at h
  | case2 acc hacc =>
    rw [splitlinesAux_nil, if_neg hacc]
    obtain ⟨c, hc, hcs⟩ := h
    simp only [List.append_nil] at hc
    have hstrip : pyStrip acc.reverse ≠ [] := by
      intro hnil
      rw [all_space_of_strip_eq_nil acc.reverse hnil c hc] at hcs
      exact absurd hcs (by simp)
    simp [List.filter_cons, hstrip]
  | case3 acc =>
    rw [splitlinesAux_cr_nil]
    obtain ⟨c, hc, hcs⟩ := h
    have hc2 : c ∈ acc.reverse := by
      rcases List.mem_append.mp hc with hc | hc
      · exact hc
      · rcases List.mem_singleton.mp hc with rfl
        exact absurd hcs (by decide)
    have hstrip : pyStrip acc.reverse ≠ [] := by
      intro hnil
      rw [all_space_of_strip_eq_nil acc.reverse hnil c hc2] at hcs
      exact absurd hcs (by simp)
    simp [List.filter_cons, hstrip]
  | case4 acc rs ih =>
    rw [splitlinesAux_crlf]
    obtain ⟨c, hc, hcs⟩ := h
    by_cases hstrip : pyStrip acc.reverse = []
    · have hcrs : c ∈ rs := by
        rcases List.mem_append.mp hc with hc | hc
        · rw [all_space_of_strip_eq_nil acc.reverse hstrip c hc] at hcs
          exact absurd hcs (by simp)
        · rcases List.mem_cons.mp hc with rfl | hc
          · exact absurd hcs (by decide)
          · rcases List.mem_cons.mp hc with rfl | hc
            · exact absurd hcs (by decide)
            · exact hc
      have htail := ih ⟨c, by simpa using hcrs, hcs⟩
      simp only [List.map_cons, List.filter_cons]
      rw [show (decide (¬ pyStrip acc.reverse = [])) = false from by simp [hstrip]]
      exact htail
    · simp [List.filter_cons, hstrip]
  | case5 acc r rs hr ih =>
    rw [splitlinesAux_cr _ _ _ hr]
    obtain ⟨c, hc, hcs⟩ := h
    by_cases hstrip : pyStrip acc.reverse = []
    · have hcrs : c ∈ r :: rs := by
        rcases List.mem_append.mp hc with hc | hc
        · rw [all_space_of_strip_eq_nil acc.reverse hstrip c hc] at hcs
          exact absurd hcs (by simp)
        · rcases List.mem_cons.mp hc with rfl | hc
          · exact absurd hcs (by decide)
          · exact hc
      have htail := ih ⟨c, by simpa using hcrs, hcs⟩
      simp only [List.map_cons, List.filter_cons]
      rw [show (decide (¬ pyStrip acc.reverse = [])) = false from by simp [hstrip]]
      exact htail
    · simp [List.filter_cons, hstrip]
  | case6 rest acc hn ih =>
    rw [splitlinesAux_lf]
    obtain ⟨c, hc, hcs⟩ := h
    by_cases hstrip : pyStrip acc.reverse = []
    · have hcrest : c ∈ rest := by
        rcases List.mem_append.mp hc with hc | hc
        · rw [all_space_of_strip_eq_nil acc.reverse hstrip c hc] at hcs
          exact absurd hcs (by simp)
        · rcases List.mem_cons.mp hc with rfl | hc
          · exact absurd hcs (by decide)
          · exact hc
      have htail := ih ⟨c, by simpa using hcrest, hcs⟩
      simp only [List.map_cons, List.filter_cons]
      rw [show (decide (¬ pyStrip acc.reverse = [])) = false from by simp [hstrip]]
      exact htail
    · simp [List.filter_cons, hstrip]
  | case7 c rest acc h1 h2 ih =>
    rw [splitlinesAux_other _ _ _ h1 h2]
    refine ih ?_
    obtain ⟨d, hd, hds⟩ := h
    refine ⟨d, ?_, hds⟩
    simp only [List.reverse_cons, List.append_assoc, List.singleton_append]
    simpa using hd

/-- `parse_caption_output` never fails: the `IndexError` branch of the
multi-line case is unreachable. -/
theorem parse_total (t : List Char) :
    ∃ p, parse_caption_output t = some p := by
  rw [parse_caption_output]
  by_cases hm : (containsSub TOPm (pyUpper (pyStrip t)) ||
      containsSub BOTTOMm (pyUpper (pyStrip t))) = true
  · rw [if_pos hm]
    exact ⟨_, rfl⟩
  · rw [if_neg hm]
    by_cases hn : (pyStrip t).contains '\n' = true
    · rw [if_pos hn]
      have hne : pyStrip t ≠ [] := by
        intro hnil
        rw [hnil] at hn
        simp [List.contains] at hn
      obtain ⟨c, hc, hcs⟩ := exists_nonspace_of_strip_ne_nil t hne
      have hparts : nonEmptyParts (pyStrip t) ≠ [] := by
        rw [nonEmptyParts, pySplitlines]
        exact splitlinesAux_parts_ne_nil (pyStrip t) [] ⟨c, by simpa using hc, hcs⟩
      cases hp : nonEmptyParts (pyStrip t) with
      | nil => exact absurd hp hparts
      | cons p0 ps =>
        cases ps with
        | nil => exact ⟨_, rfl⟩
        | cons p1 ps2 => exact ⟨_, rfl⟩
    · rw [if_neg hn]
      exact ⟨_, rfl⟩

/-! ### Lemmas about the marker loop -/

/-- A line cannot start with both `TOP:` and `BOTTOM:` after upcasing. -/
theorem isTopLine_isBotLine_disjoint (l : List Char) (h : isTopLine l = true) :
    isBotLine l = false := by
  rw [isTopLine] at h
  rw [isBotLine]
  have htop := List.isPrefixOf_iff_prefix.mp h
  obtain ⟨s, hs⟩ := htop
  rw [Bool.eq_false_iff]
  intro hb
  have hbot := List.isPrefixOf_iff_prefix.mp hb
  obtain ⟨s2, hs2⟩ := hbot
  rw [← hs] at hs2
  rw [show TOPm ++ s = 'T' :: ('O' :: 'P' :: ':' :: s) from rfl,
    show BOTTOMm ++ s2 = 'B' :: ('O' :: 'T' :: 'T' :: 'O' :: 'M' :: ':' :: s2)
      from rfl] at hs2
  injection hs2 with h1 _
  exact absurd h1 (by decide)

/-- If no line matches `TOP:`, the first component of the loop state is
unchanged. -/
theorem markerLoop_fst_nil (lines : List (List Char)) (t0 b0 : List Char)
    (h : lines.filter isTopLine = []) : (markerLoop lines (t0, b0)).1 = t0 := by
  induction lines generalizing t0 b0 with
  | nil => rfl
  | cons l rest ih =>
    rw [List.filter_cons] at h
    by_cases hl : isTopLine l = true
    · rw [hl] at h
      simp at h
    · rw [markerLoop, if_neg hl]
      rw [if_neg hl] at h
      by_cases hb : isBotLine l = true
      · rw [if_pos hb]
        exact ih _ _ h
      · rw [if_neg hb]
        exact ih _ _ h

/-- If exactly one line matches `TOP:`, the loop ends with `top` holding
that line's content after the first colon, stripped. -/
theorem markerLoop_fst_single (lines : List (List Char)) (lt t0 b0 : List Char)
    (h : lines.filter isTopLine = [lt]) :
    (markerLoop lines (t0, b0)).1 = afterFirstColonStrip lt := by
  induction lines generalizing t0 b0 with
  | nil => simp at h
  | cons l rest ih =>
    rw [List.filter_cons] at h
    by_cases hl : isTopLine l = true
    · rw [hl] at h
      simp only [if_true] at h
      injection h with h1 h2
      subst h1
      rw [markerLoop, if_pos hl]
      exact markerLoop_fst_nil rest _ b0 h2
    · rw [if_neg hl] at h
      rw [markerLoop, if_neg hl]
      by_cases hb : isBotLine l = true
      · rw [if_pos hb]
        exact ih _ _ h
      · rw [if_neg hb]
        exact ih _ _ h

/-- If no line matches `BOTTOM:`, the second component of the loop state
is unchanged. -/
theorem markerLoop_snd_nil (lines : List (List Char)) (t0 b0 : List Char)
    (h : lines.filter isBotLine = []) : (markerLoop lines (t0, b0)).2 = b0 := by
  induction lines generalizing t0 b0 with
  | nil => rfl
  | cons l rest ih =>
    rw [List.filter_cons] at h
    by_cases hb : isBotLine l = true
    · rw [hb] at h
      simp at h
    · rw [if_neg hb] at h
      rw [markerLoop]
      by_cases hl : isTopLine l = true
      · rw [if_pos hl]
        exact ih _ _ h
      · rw [if_neg hl, if_neg hb]
        exact ih _ _ h

/-- If exactly one line matches `BOTTOM:`, the loop ends with `bottom`
holding that line's content after the first colon, stripped. -/
theorem markerLoop_snd_single (lines : List (List Char)) (lb t0 b0 : List Char)
    (h : lines.filter isBotLine = [lb]) :
    (markerLoop lines (t0, b0)).2 = afterFirstColonStrip lb := by
  induction lines generalizing t0 b0 with
  | nil => simp at h
  | cons l rest ih =>
    rw [List.filter_cons] at h
    by_cases hb : isBotLine l = true
    · rw [hb] at h
      simp only [if_true] at h
      injection h with h1 h2
      subst h1
      have hl : isTopLine l = false := by
        rw [Bool.eq_false_iff]
        intro ht
        rw [isTopLine_isBotLine_disjoint l ht] at hb
        exact absurd hb (by simp)
      rw [markerLoop, if_neg (by simp [hl]), if_pos hb]
      exact markerLoop_snd_nil rest _ _ h2
    · rw [if_neg hb] at h
      rw [markerLoop]
      by_cases hl : isTopLine l = true
      · rw [if_pos hl]
        exact ih _ _ h
      · rw [if_neg hl, if_neg hb]
        exact ih _ _ h

/-- A `TOP:`/`BOTTOM:`-prefixed line inside the text forces the marker
substring test on the whole upcased text to succeed. -/
theorem containsSub_of_line (text line pat : List Char)
    (hmem : line ∈ pySplitlines text)
    (hpre : pat.isPrefixOf (pyUpper line) = true) :
    containsSub pat (pyUpper text) = true := by
  rw [containsSub_iff]
  have h1 : pat <+: pyUpper line := List.isPrefixOf_iff_prefix.mp hpre
  have h2 : pyUpper line <:+: pyUpper text :=
    List.IsInfix.map Char.toUpper (mem_splitlines_sub text line hmem)
  exact List.IsInfix.trans (List.IsPrefix.isInfix h1) h2

/-- In the marker branch, `parse_caption_output` returns the marker-loop
result. -/
theorem parse_marker_eq (t : List Char)
    (hc : (containsSub TOPm (pyUpper (pyStrip t)) ||
      containsSub BOTTOMm (pyUpper (pyStrip t))) = true) :
    parse_caption_output t =
      some (markerLoop (pySplitlines (pyStrip t)) ([], [])) := by
  simp only [parse_caption_output]
  rw [if_pos hc]

/-! ### The claims -/

/-- Claim C1: for every input text whose stripped line list has exactly one
line beginning (case-insensitively) with `TOP:` and exactly one beginning
with `BOTTOM:`, `parse_caption_output` returns the pair of the substrings
after the first colon of those lines, trimmed; and a field whose marker
line is absent (while the other marker line is present) remains the empty
string. -/
theorem claim1_marker_extraction :
    (∀ t lt lb : List Char,
      (pySplitlines (pyStrip t)).filter isTopLine = [lt] →
      (pySplitlines (pyStrip t)).filter isBotLine = [lb] →
      parse_caption_output t =
        some (afterFirstColonStrip lt, afterFirstColonStrip lb)) ∧
    (∀ t lb : List Char,
      (pySplitlines (pyStrip t)).filter isTopLine = [] →
      (pySplitlines (pyStrip t)).filter isBotLine = [lb] →
      parse_caption_output t = some ([], afterFirstColonStrip lb)) ∧
    (∀ t lt : List Char,
      (pySplitlines (pyStrip t)).filter isTopLine = [lt] →
      (pySplitlines (pyStrip t)).filter isBotLine = [] →
      parse_caption_output t = some (afterFirstColonStrip lt, [])) := by
  refine ⟨?_, ?_, ?_⟩
  · intro t lt lb htop hbot
    have hmem : lt ∈ pySplitlines (pyStrip t) :=
      List.mem_of_mem_filter (htop ▸ List.mem_singleton_self lt)
    have hpre : isTopLine lt = true :=
      List.of_mem_filter (htop ▸ List.mem_singleton_self lt)
    have hc := containsSub_of_line (pyStrip t) lt TOPm hmem hpre
    rw [parse_marker_eq t (by rw [hc]; simp)]
    exact congrArg some (Prod.ext
      (markerLoop_fst_single _ lt [] [] htop)
      (markerLoop_snd_single _ lb [] [] hbot))
  · intro t lb htop hbot
    have hmem : lb ∈ pySplitlines (pyStrip t) :=
      List.mem_of_mem_filter (hbot ▸ List.mem_singleton_self lb)
    have hpre : isBotLine lb = true :=
      List.of_mem_filter (hbot ▸ List.mem_singleton_self lb)
    have hc := containsSub_of_line (pyStrip t) lb BOTTOMm hmem hpre
    rw [parse_marker_eq t (by rw [hc]; simp)]
    exact congrArg some (Prod.ext
      (markerLoop_fst_nil _ [] [] htop)
      (markerLoop_snd_single _ lb [] [] hbot))
  · intro t lt htop hbot
    have hmem : lt ∈ pySplitlines (pyStrip t) :=
      List.mem_of_mem_filter (htop ▸ List.mem_singleton_self lt)
    have hpre : isTopLine lt = true :=
      List.of_mem_filter (htop ▸ List.mem_singleton_self lt)
    have hc := containsSub_of_line (pyStrip t) lt TOPm hmem hpre
    rw [parse_marker_eq t (by rw [hc]; simp)]
    exact congrArg some (Prod.ext
      (markerLoop_fst_single _ lt [] [] htop)
      (markerLoop_snd_nil _ [] [] hbot))

/-- Witness for C1 on the spec's example shape, including a
missing-`TOP:` input. -/
theorem claim1_witness :
    parse_caption_output ("TOP: X\nBOTTOM: Y".data) =
      some ("X".data, "Y".data) ∧
    parse_caption_output ("bottom:  Y ".data) = some ([], "Y".data) := by
  constructor
  · have h := claim1_marker_extraction.1 ("TOP: X\nBOTTOM: Y".data)
      ("TOP: X".data) ("BOTTOM: Y".data) (by decide) (by decide)
    exact h.trans (by decide)
  · have h := claim1_marker_extraction.2.1 ("bottom:  Y ".data)
      ("bottom:  Y".data) (by decide) (by decide)
    exact h.trans (by decide)

/-- Claim C10: an input whose upcased stripped text contains `TOP:` or
`BOTTOM:` as a substring, but none of whose lines actually starts with
either marker, lands in the marker branch and yields two empty fields;
the multi-line and word-split branches are never tried. -/
theorem claim10_substring_trap (t : List Char)
    (hc : (containsSub TOPm (pyUpper (pyStrip t)) ||
      containsSub BOTTOMm (pyUpper (pyStrip t))) = true)
    (hl : ∀ l ∈ pySplitlines (pyStrip t), isTopLine l = false ∧ isBotLine l = false) :
    parse_caption_output t = some ([], []) := by
  rw [parse_marker_eq t hc]
  refine congrArg some (Prod.ext ?_ ?_)
  · refine markerLoop_fst_nil _ [] [] (List.filter_eq_nil_iff.mpr ?_)
    intro l hmem
    simp [(hl l hmem).1]
  · refine markerLoop_snd_nil _ [] [] (List.filter_eq_nil_iff.mpr ?_)
    intro l hmem
    simp [(hl l hmem).2]

/-- Witness for C10: `"STOP: thief"` contains `TOP:` mid-word, no line
starts with a marker, and the parser returns two empty strings. -/
theorem claim10_witness :
    parse_caption_output ("STOP: thief".data) = some ([], []) := by
  exact claim10_substring_trap ("STOP: thief".data) (by decide) (by decide)

/-- Claim C5 (multi-line, marker-free): top is the first non-empty line
trimmed, bottom the second; with exactly one non-empty line, bottom stays
empty. -/
theorem claim5_multiline (t p0 p1 : List Char) (ps : List (List Char))
    (hm : (containsSub TOPm (pyUpper (pyStrip t)) ||
      containsSub BOTTOMm (pyUpper (pyStrip t))) = false)
    (hn : (pyStrip t).contains '\n' = true) :
    (nonEmptyParts (pyStrip t) = p0 :: p1 :: ps →
      parse_caption_output t = some (p0, p1)) ∧
    (nonEmptyParts (pyStrip t) = [p0] →
      parse_caption_output t = some (p0, [])) := by
  constructor
  · intro hparts
    simp only [parse_caption_output, hm, hn, Bool.false_eq_true, if_false,
      if_true, hparts]
  · intro hparts
    simp only [parse_caption_output, hm, hn, Bool.false_eq_true, if_false,
      if_true, hparts]

/-- Witness for C5 at the spec's example `"A\nB"`. -/
theorem claim5_witness :
    parse_caption_output ("A\nB".data) = some ("A".data, "B".data) := by
  exact (claim5_multiline ("A\nB".data) ("A".data) ("B".data) []
    (by decide) (by decide)).1 (by decide)

/-- Claim C4 (single-line, marker-free): the words are split with
`max 1 (n / 2)` going to top (rejoined with single spaces) and the rest to
bottom. -/
theorem claim4_word_split (t : List Char)
    (hm : (containsSub TOPm (pyUpper (pyStrip t)) ||
      containsSub BOTTOMm (pyUpper (pyStrip t))) = false)
    (hn : (pyStrip t).contains '\n' = false) :
    parse_caption_output t =
      some (pyJoinSpace ((pySplitWs (pyStrip t)).take
              (max 1 ((pySplitWs (pyStrip t)).length / 2))),
            pyJoinSpace ((pySplitWs (pyStrip t)).drop
              (max 1 ((pySplitWs (pyStrip t)).length / 2)))) := by
  simp only [parse_caption_output, hm, hn, Bool.false_eq_true, if_false]

/-- Witness for C4 at the spec's examples: four words split 2/2, one word
gives an empty bottom. -/
theorem claim4_witness :
    parse_caption_output ("w1 w2 w3 w4".data) =
      some ("w1 w2".data, "w3 w4".data) ∧
    parse_caption_output ("w1".data) = some ("w1".data, []) := by
  constructor
  · exact (claim4_word_split ("w1 w2 w3 w4".data) (by decide)
      (by decide)).trans (by decide)
  · exact (claim4_word_split ("w1".data) (by decide) (by decide)).trans
      (by decide)

/-- The word-split branch of `parse_caption_output`, as an equation. -/
theorem parse_words_eq (t : List Char)
    (hm : (containsSub TOPm (pyUpper (pyStrip t)) ||
      containsSub BOTTOMm (pyUpper (pyStrip t))) = false)
    (hn : (pyStrip t).contains '\n' = false) :
    parse_caption_output t =
      some (pyJoinSpace ((pySplitWs (pyStrip t)).take
              (max 1 ((pySplitWs (pyStrip t)).length / 2))),
            pyJoinSpace ((pySplitWs (pyStrip t)).drop
              (max 1 ((pySplitWs (pyStrip t)).length / 2)))) := by
  simp only [parse_caption_output, hm, hn, Bool.false_eq_true, if_false]

/-- Claim C3 counterexample: the non-empty inputs `"TOP:"` and `" "` are
both parsed to a pair of two empty strings. -/
theorem claim3_counterexample :
    ("TOP:".data ≠ [] ∧ parse_caption_output ("TOP:".data) = some ([], [])) ∧
    (" ".data ≠ [] ∧ parse_caption_output (" ".data) = some ([], [])) := by
  decide

/-- Claim C3 as amended: `parse_caption_output` returns a pair for every
input without failing; and for every input whose trimmed text is non-empty
and whose upcased trimmed text contains neither `TOP:` nor `BOTTOM:` as a
substring, at least one component of the returned pair is non-empty. -/
theorem claim3_amended_invariant (t : List Char) :
    (∃ p, parse_caption_output t = some p) ∧
    (pyStrip t ≠ [] →
      containsSub TOPm (pyUpper (pyStrip t)) = false →
      containsSub BOTTOMm (pyUpper (pyStrip t)) = false →
      ∃ a b, parse_caption_output t = some (a, b) ∧ (a ≠ [] ∨ b ≠ [])) := by
  refine ⟨parse_total t, ?_⟩
  intro hne hmt hmb
  have hm : (containsSub TOPm (pyUpper (pyStrip t)) ||
      containsSub BOTTOMm (pyUpper (pyStrip t))) = false := by
    rw [hmt, hmb]
    rfl
  obtain ⟨c, hc, hcs⟩ := exists_nonspace_of_strip_ne_nil t hne
  by_cases hn : (pyStrip t).contains '\n' = true
  · have hparse : parse_caption_output t =
        (match nonEmptyParts (pyStrip t) with
          | p0 :: p1 :: _ => some (p0, p1)
          | [p0] => some (p0, [])
          | [] => none) := by
      simp only [parse_caption_output, hm, hn, Bool.false_eq_true, if_false,
        if_true]
    have hparts : nonEmptyParts (pyStrip t) ≠ [] := by
      rw [nonEmptyParts, pySplitlines]
      exact splitlinesAux_parts_ne_nil (pyStrip t) [] ⟨c, by simpa using hc, hcs⟩
    cases hp : nonEmptyParts (pyStrip t) with
    | nil => exact absurd hp hparts
    | cons p0 ps =>
      have hp0 : p0 ≠ [] := by
        have hmem : p0 ∈ nonEmptyParts (pyStrip t) := by
          rw [hp]
          exact List.mem_cons_self p0 ps
        have := List.of_mem_filter hmem
        simpa using this
      cases ps with
      | nil =>
        refine ⟨p0, [], ?_, Or.inl hp0⟩
        rw [hparse, hp]
      | cons p1 ps2 =>
        refine ⟨p0, p1, ?_, Or.inl hp0⟩
        rw [hparse, hp]
  · have hn2 : (pyStrip t).contains '\n' = false := by
      simpa using hn
    have hparse := parse_words_eq t hm hn2
    refine ⟨_, _, hparse, Or.inl ?_⟩
    have hw : pySplitWs (pyStrip t) ≠ [] :=
      splitWsAux_ne_nil (pyStrip t) [] (Or.inl ⟨c, hc, hcs⟩)
    obtain ⟨w0, ws, hws⟩ := List.exists_cons_of_ne_nil hw
    have hw0 : w0 ≠ [] := by
      refine mem_splitWsAux_ne_nil (pyStrip t) [] w0 ?_
      rw [show pySplitWsAux (pyStrip t) [] = pySplitWs (pyStrip t) from rfl, hws]
      exact List.mem_cons_self w0 ws
    rw [hws]
    obtain ⟨m, hmax⟩ : ∃ m, max 1 ((w0 :: ws).length / 2) = m + 1 := by
      refine ⟨max 1 ((w0 :: ws).length / 2) - 1, ?_⟩
      omega
    rw [hmax, List.take_succ_cons]
    exact joinSpace_ne_nil w0 _ hw0

/-- Witness for C3 as amended, at the inputs `"x"` and `"hello"`. -/
theorem claim3_witness :
    (∃ p, parse_caption_output ("x".data) = some p) ∧
    (∃ a b, parse_caption_output ("hello".data) = some (a, b) ∧
      (a ≠ [] ∨ b ≠ [])) :=
  ⟨(claim3_amended_invariant ("x".data)).1,
   (claim3_amended_invariant ("hello".data)).2 (by decide) (by decide) (by decide)⟩

/-- Claim C2: `generate_caption` is a total function returning a pair, and
it returns exactly the fallback generator's result whenever the credential
is absent or the client library is unavailable, whenever the remote call
raises, and whenever the parsed remote response has both fields empty; no
error is surfaced. -/
theorem claim2_generate_fallback (avail : Bool) (key : List Char)
    (remote : Option (List Char)) (k : Fin punch_templates.length)
    (prompt : List Char) :
    ((key = [] ∨ avail = false) →
      generate_caption avail key remote k prompt = fallback_caption k prompt) ∧
    (remote = none →
      generate_caption avail key remote k prompt = fallback_caption k prompt) ∧
    (∀ text, remote = some text → parse_caption_output text = none →
      generate_caption avail key remote k prompt = fallback_caption k prompt) ∧
    (∀ text, remote = some text → parse_caption_output text = some ([], []) →
      generate_caption avail key remote k prompt = fallback_caption k prompt) := by
  refine ⟨?_, ?_, ?_, ?_⟩
  · intro h
    rw [generate_caption.eq_def, if_pos h]
  · rintro rfl
    by_cases h : key = [] ∨ avail = false
    · rw [generate_caption.eq_def, if_pos h]
    · rw [generate_caption.eq_def, if_neg h]
  · rintro text rfl hp
    by_cases h : key = [] ∨ avail = false
    · rw [generate_caption.eq_def, if_pos h]
    · rw [generate_caption.eq_def, if_neg h]
      simp only [hp]
  · rintro text rfl hp
    by_cases h : key = [] ∨ avail = false
    · rw [generate_caption.eq_def, if_pos h]
    · rw [generate_caption.eq_def, if_neg h]
      simp only [hp]
      simp

/-- A fixed template index, used to instantiate witnesses. -/
def idx0 : Fin punch_templates.length := ⟨0, by decide⟩

/-- Witness for C2: no credential, and a remote response parsing to two
empty fields, both collapse to the fallback result. -/
theorem claim2_witness :
    generate_caption false ("k".data) none idx0 ("hi".data) =
      fallback_caption idx0 ("hi".data) ∧
    generate_caption true ("k".data) (some ("TOP:".data)) idx0 ("hi".data) =
      fallback_caption idx0 ("hi".data) := by
  constructor
  · exact (claim2_generate_fallback false ("k".data) none idx0
      ("hi".data)).1 (Or.inr rfl)
  · exact (claim2_generate_fallback true ("k".data) (some ("TOP:".data)) idx0
      ("hi".data)).2.2.2 ("TOP:".data) rfl (by decide)

/-- Claim C6: `make_memegen_url` is the fixed base, the template and the
two encoded captions as path segments with a `.png` suffix, where an empty
caption encodes to `_` and a non-empty one to its percent-encoding with an
empty extra-safe set; in particular the spec's `drake` example. -/
theorem claim6_memegen_url :
    (∀ template top bottom : List Char,
      make_memegen_url template top bottom =
        "https://api.memegen.link/images/".data ++ template ++ '/' ::
          (encSegment top ++ '/' :: (encSegment bottom ++ ".png".data))) ∧
    encSegment [] = ['_'] ∧
    (∀ s : List Char, s ≠ [] → encSegment s = pyQuote [] s) ∧
    make_memegen_url ("drake".data) [] ("hello world".data) =
      "https://api.memegen.link/images/drake/_/hello%20world.png".data := by
  refine ⟨fun _ _ _ => rfl, rfl, ?_, by decide⟩
  intro s hs
  rw [encSegment, if_neg hs]

/-- Witness for C6: a non-empty segment is percent-encoded. -/
theorem claim6_witness :
    encSegment ("a b".data) = pyQuote [] ("a b".data) ∧
    pyQuote [] ("a b".data) = "a%20b".data :=
  ⟨claim6_memegen_url.2.2.1 ("a b".data) (by decide), by decide⟩

/-- Claim C7: `fallback_caption` draws from the fixed four-element template
list, its bottom is the chosen template's (non-empty) bottom line, its top
prepends the prompt with an em-dash separator exactly when the prompt is
non-empty, and the prompt is always a prefix of the top. -/
theorem claim7_fallback (k : Fin punch_templates.length) (prompt : List Char) :
    punch_templates.length = 4 ∧
    punch_templates.get k ∈ punch_templates ∧
    fallback_caption k prompt =
      (if prompt = [] then (punch_templates.get k).1
       else prompt ++ dashSep ++ (punch_templates.get k).1,
       (punch_templates.get k).2) ∧
    (punch_templates.get k).2 ≠ [] ∧
    prompt <+: (fallback_caption k prompt).1 := by
  refine ⟨rfl, List.get_mem punch_templates k.1 k.2, rfl, ?_, ?_⟩
  · have h : ∀ j : Fin punch_templates.length,
        (punch_templates.get j).2 ≠ [] := by decide
    exact h k
  · simp only [fallback_caption]
    by_cases hp : prompt = []
    · rw [if_pos hp, hp]
      exact List.nil_prefix
    · rw [if_neg hp]
      exact ⟨dashSep ++ (punch_templates.get k).1, by simp⟩

/-- Claim C8: `make_share_links` returns exactly the three platforms
Twitter, WhatsApp and Reddit in order, and each share URL contains the
percent-encoded caption text as a substring. -/
theorem claim8_share_links (meme_url caption_text : List Char) :
    (make_share_links meme_url caption_text).map Prod.fst =
      ["Twitter".data, "WhatsApp".data, "Reddit".data] ∧
    (∀ pr ∈ make_share_links meme_url caption_text,
      pyQuote ['/'] caption_text <:+: pr.2) := by
  constructor
  · rfl
  · intro pr hpr
    rw [make_share_links] at hpr
    rcases List.mem_cons.mp hpr with rfl | hpr
    · exact ⟨"https://twitter.com/intent/tweet?text=".data,
        "&url=".data ++ pyQuote ['/'] meme_url, by simp⟩
    rcases List.mem_cons.mp hpr with rfl | hpr
    · refine ⟨"https://api.whatsapp.com/send?text=".data,
        pyQuote ['/'] (' ' :: meme_url), ?_⟩
      show _ ++ pyQuote ['/'] caption_text ++ pyQuote ['/'] (' ' :: meme_url) =
        _ ++ pyQuote ['/'] (caption_text ++ ' ' :: meme_url)
      rw [show caption_text ++ ' ' :: meme_url =
        caption_text ++ (' ' :: meme_url) from rfl]
      rw [pyQuote, pyQuote, pyQuote, List.flatMap_append, List.append_assoc]
    rcases List.mem_cons.mp hpr with rfl | hpr
    · exact ⟨"https://www.reddit.com/submit?title=".data,
        "&url=".data ++ pyQuote ['/'] meme_url, by simp⟩
    · simp at hpr

/-- Witness for C8 at a concrete URL and caption, checking the WhatsApp
link (whose caption occurrence comes from the encoding homomorphism). -/
theorem claim8_witness :
    (make_share_links ("http://m/x".data) ("a b".data)).map Prod.fst =
      ["Twitter".data, "WhatsApp".data, "Reddit".data] ∧
    pyQuote ['/'] ("a b".data) <:+:
      ((make_share_links ("http://m/x".data) ("a b".data)).get
        ⟨1, by decide⟩).2 := by
  constructor
  · exact (claim8_share_links ("http://m/x".data) ("a b".data)).1
  · exact (claim8_share_links ("http://m/x".data) ("a b".data)).2 _
      (List.get_mem _ _ _)

end MemeAI
